import Mathlib

/-
Verification of the feature-extraction and script-orchestration layer of
music.py (a single-file music-genre-classification training script).

Modelling conventions.

Floating-point scalars are modelled as exact rationals.  A scalar that can
be NaN (the result of the unguarded division by the standard deviation in
the standardization step) is modelled as `Option ℚ`, with `none` standing
for NaN and `some q` for the finite value `q`.

A 2-D numpy array is a rectangular `List (List _)` of rows (axis 0 = mel
bins, axis 1 = time frames), with rectangularity stated as a predicate
where a theorem needs it.

The decoding / DSP stage performed by the external library
(librosa.load → librosa.feature.melspectrogram → librosa.power_to_db) is
not code of this script; each audio file is therefore represented by the
outcome of that stage: either an exception (`Except.error`) or the decibel
mel-spectrogram matrix it produces.  The script then computes the matrix's
mean and standard deviation (music.py line 44).  The exact standard
deviation is an irrational square root in general, so it is carried as a
rational field `std` next to the matrix and constrained by `DbSpec.WF`
(nonnegative, and its square is the variance of the entries) in theorems
that depend on its value.

Python exceptions are modelled with `Except String`; the `print` calls in
the per-file exception handler are modelled by accumulating the printed
messages in a `log` list that is returned alongside the arrays.
-/

namespace MusicPy

/-- Genre list, music.py lines 16-17. -/
def GENRES : List String :=
  ["blues", "classical", "country", "disco", "hiphop",
   "jazz", "metal", "pop", "reggae", "rock"]

/-- Sample rate constant, music.py line 18. -/
def SAMPLE_RATE : ℕ := 22050

/-- Time-frame count constant, music.py line 19. -/
def TIME_FRAMES : ℕ := 250

/-- Mel-bin count constant, music.py line 20. -/
def N_MELS : ℕ := 128

/-- A float scalar that may be NaN: `none` is NaN, `some q` is finite. -/
abbrev Cell := Option ℚ

/-- A 2-D array of finite floats (rows × columns). -/
abbrev Mat := List (List ℚ)

/-- A 2-D array of possibly-NaN floats. -/
abbrev OMat := List (List Cell)

/-- Mean of a list of scalars, as computed by numpy ndarray.mean over the
flattened array (division by zero yields 0 in ℚ; the empty case never
arises in the theorems). -/
def qmean (l : List ℚ) : ℚ := l.sum / l.length

/-- Population variance of a list of scalars (numpy ndarray.var semantics,
the square of ndarray.std). -/
def qvariance (l : List ℚ) : ℚ :=
  (l.map (fun x => (x - qmean l) ^ 2)).sum / l.length

/-- Rectangularity of a list-of-rows matrix: `r` rows, each of length `c`. -/
def Rect (m : List (List α)) (r c : ℕ) : Prop :=
  m.length = r ∧ ∀ row ∈ m, row.length = c

instance (m : List (List α)) (r c : ℕ) : Decidable (Rect m r c) := by
  unfold Rect; infer_instance

/-- Outcome of the library DSP stage for one file: the decibel
mel-spectrogram matrix `mat` (music.py lines 32-42) together with the
value `std` of `mat.std()` computed at line 44.  `std` is data because the
exact square root of the variance is irrational in general; `DbSpec.WF`
pins it down. -/
structure DbSpec where
  mat : Mat
  std : ℚ

/-- The `std` field really is the standard deviation of the entries of
`mat`: nonnegative, and its square is the population variance. -/
def DbSpec.WF (d : DbSpec) : Prop :=
  0 ≤ d.std ∧ d.std ^ 2 = qvariance d.mat.flatten

instance (d : DbSpec) : Decidable d.WF := by
  unfold DbSpec.WF; infer_instance

/-- One audio file in a genre directory: its file name and the outcome of
decoding plus DSP for it (`Except.error` models a Python exception raised
inside the try block of music.py lines 31-54). -/
structure AudioFile where
  name : String
  dsp : Except String DbSpec

/-- Python str.endswith over the characters of the strings: the last
`t.length` characters of `s` are exactly `t`. -/
def strEndsWith (s t : String) : Bool :=
  s.data.drop (s.data.length - t.data.length) == t.data

/-- Standardization, music.py line 44:
`mel_spec_db = (mel_spec_db - mel_spec_db.mean()) / mel_spec_db.std()`.
When the standard deviation is zero every entry equals the mean, so each
division is IEEE 0.0/0.0 = NaN (`none`); otherwise the entry is the finite
value `(x - mean) / std`. -/
def standardize (m : Mat) (s : ℚ) : OMat :=
  let mu := qmean m.flatten
  m.map (fun row => row.map (fun x => if s = 0 then none else some ((x - mu) / s)))

/-- Number of columns of a matrix (numpy `shape[1]`), read off the first
row; matrices reaching this point are rectangular. -/
def cols (m : OMat) : ℕ := (m.head?.map List.length).getD 0

/-- Fit to exactly TIME_FRAMES columns, music.py lines 46-50: truncate
each row to its first TIME_FRAMES entries when there are more columns,
otherwise right-pad each row with zeros (np.pad mode constant) up to
TIME_FRAMES. -/
def fitFrames (m : OMat) : OMat :=
  if TIME_FRAMES < cols m then
    m.map (fun row => row.take TIME_FRAMES)
  else
    m.map (fun row => row ++ List.replicate (TIME_FRAMES - cols m) (some 0))

/-- The whole per-file feature computation inside the try block:
standardize, then fit to TIME_FRAMES columns. -/
def fileFeature (d : DbSpec) : OMat := fitFrames (standardize d.mat d.std)

/-- Accumulated state of the extraction loop: the `features` and `labels`
lists of music.py line 23 plus the messages printed by the exception
handler at line 56. -/
structure ExtractState where
  features : List OMat
  labels : List ℕ
  log : List String
deriving DecidableEq

/-- Inner loop body over one genre directory, music.py lines 27-56: for
each file whose name ends in ".wav", run the try block; on success append
the feature and the genre index, on an exception append the printed error
message (which embeds the file name) to the log and continue. -/
def stepGenre (gi : ℕ) : List AudioFile → ExtractState → ExtractState
  | [], st => st
  | f :: rest, st =>
    if strEndsWith f.name ".wav" then
      match f.dsp with
      | .ok d =>
          stepGenre gi rest
            ⟨st.features ++ [fileFeature d], st.labels ++ [gi], st.log⟩
      | .error e =>
          stepGenre gi rest
            ⟨st.features, st.labels,
             st.log ++ ["Error processing " ++ f.name ++ ": " ++ e]⟩
    else
      stepGenre gi rest st

/-- Outer loop over the enumerated genre list, music.py lines 25-27.  The
data directory is modelled as a map from genre name to the directory
listing; `none` means the subdirectory is missing, in which case
os.listdir raises outside the per-file try block and the whole run fails
(`Except.error`). -/
def extractFrom (dd : String → Option (List AudioFile)) :
    List (ℕ × String) → ExtractState → Except String ExtractState
  | [], st => .ok st
  | (gi, g) :: rest, st =>
    match dd g with
    | none => .error ("No such file or directory: " ++ g)
    | some files => extractFrom dd rest (stepGenre gi files st)

/-- The rows of the one-hot array built by keras.utils.to_categorical when
called with its default `num_classes=None` (music.py line 58): the number
of classes is inferred as one plus the largest label present, not as the
length of GENRES. -/
def oneHotRows (labels : List ℕ) : List (List ℚ) :=
  labels.map (fun l =>
    (List.range (labels.foldl max 0 + 1)).map (fun j => if j = l then (1 : ℚ) else 0))

/-- keras.utils.to_categorical with default `num_classes=None`: on an
empty label list np.max raises a ValueError, otherwise the one-hot rows
are returned. -/
def to_categorical (labels : List ℕ) : Except String (List (List ℚ)) :=
  match labels with
  | [] => .error "zero-size array to reduction operation maximum which has no identity"
  | _ :: _ => .ok (oneHotRows labels)

/-- Trailing singleton channel dimension, `np.array(features)[..., np.newaxis]`
(music.py line 58): every scalar becomes a length-one innermost list. -/
def addChannel (m : OMat) : List (List (List Cell)) :=
  m.map (fun row => row.map (fun x => [x]))

/-- What a successful run returns (and prints): the feature array with the
channel axis added, the one-hot label array, and the log of per-file error
messages printed along the way. -/
structure Output where
  features : List (List (List (List Cell)))
  oneHot : List (List ℚ)
  log : List String
deriving DecidableEq

/-- load_and_preprocess_data, music.py lines 22-58, over a modelled data
directory. -/
def load_and_preprocess_data (dd : String → Option (List AudioFile)) :
    Except String Output :=
  match extractFrom dd GENRES.enum ⟨[], [], []⟩ with
  | .error e => .error e
  | .ok st =>
    (to_categorical st.labels).map
      (fun oh => ⟨st.features.map addChannel, oh, st.log⟩)

/-- The finite entries of a possibly-NaN matrix, flattened (the NaN
entries are dropped; for a NaN-free matrix this is exactly the multiset of
entries, in row-major order). -/
def flatVals (m : OMat) : List ℚ := m.flatten.filterMap id

/-- A directory entry that the loop actually turns into a sample: its
name ends in ".wav" and the decode/DSP stage succeeded. -/
def isGoodWav (f : AudioFile) : Bool :=
  strEndsWith f.name ".wav" &&
    (match f.dsp with
     | .ok _ => true
     | .error _ => false)

/-- Number of samples contributed by the listed genre directories: for
each enumerated genre, the number of its files that are good wav files. -/
def countFrom (dd : String → Option (List AudioFile)) (l : List (ℕ × String)) : ℕ :=
  (l.map (fun p =>
    match dd p.2 with
    | some files => (files.filter (fun f => isGoodWav f)).length
    | none => 0)).sum

/-- Componentwise concatenation of extraction states. -/
def ExtractState.app (a b : ExtractState) : ExtractState :=
  ⟨a.features ++ b.features, a.labels ++ b.labels, a.log ++ b.log⟩

/-- Row selection by a boolean mask (true rows are kept), used to model
the index partition chosen internally by sklearn train_test_split. -/
def selectRows (mask : List Bool) (l : List α) : List α :=
  (l.zip mask).filterMap (fun p => if p.2 then some p.1 else none)

/-- Modelled from the spec: sklearn.model_selection.train_test_split
(music.py lines 96-98) is external library code; it partitions the rows
of X and y by an internally chosen boolean mask (true = test row).  The
four results are X_train, X_test, y_train, y_test in order. -/
def train_test_split (mask : List Bool) (X : List α) (y : List β) :
    List α × List α × List β × List β :=
  (selectRows (mask.map not) X, selectRows mask X,
   selectRows (mask.map not) y, selectRows mask y)

/-- The `validation_data` argument passed to model.fit at music.py line
132: the test partition of the split. -/
def fit_validation_data (mask : List Bool) (X : List α) (y : List β) :
    List α × List β :=
  ((train_test_split mask X y).2.1, (train_test_split mask X y).2.2.2)

/-- The arrays passed to model.evaluate at music.py line 137. -/
def evaluate_args (mask : List Bool) (X : List α) (y : List β) :
    List α × List β :=
  ((train_test_split mask X y).2.1, (train_test_split mask X y).2.2.2)

/-- The array passed to model.predict at music.py line 142. -/
def predict_arg (mask : List Bool) (X : List α) (y : List β) : List α :=
  (train_test_split mask X y).2.1

/-! Lemmas about the extraction-state algebra and the two loops. -/

theorem ExtractState.app_nil (st : ExtractState) : st.app ⟨[], [], []⟩ = st := by
  cases st; simp [ExtractState.app]

theorem ExtractState.nil_app (st : ExtractState) :
    ExtractState.app ⟨[], [], []⟩ st = st := by
  cases st; simp [ExtractState.app]

theorem ExtractState.app_assoc (a b c : ExtractState) :
    (a.app b).app c = a.app (b.app c) := by
  cases a; cases b; cases c; simp [ExtractState.app]

/-- The per-genre loop processes a concatenation of file lists by
processing the two halves in order. -/
theorem stepGenre_append (gi : ℕ) (xs ys : List AudioFile) (st : ExtractState) :
    stepGenre gi (xs ++ ys) st = stepGenre gi ys (stepGenre gi xs st) := by
  induction xs generalizing st with
  | nil => simp [stepGenre]
  | cons f rest ih =>
    simp only [List.cons_append, stepGenre]
    by_cases hw : strEndsWith f.name ".wav" = true
    · simp only [hw, if_true]
      cases f.dsp with
      | ok d => exact ih _
      | error e => exact ih _
    · simp only [hw, if_false, Bool.false_eq_true]
      exact ih _

/-- The per-genre loop only appends to the incoming state: its result is
the incoming state followed by the contribution of the file list alone. -/
theorem stepGenre_hom (gi : ℕ) (fs : List AudioFile) (st : ExtractState) :
    stepGenre gi fs st = st.app (stepGenre gi fs ⟨[], [], []⟩) := by
  induction fs generalizing st with
  | nil => simp [stepGenre, ExtractState.app_nil]
  | cons f rest ih =>
    simp only [stepGenre]
    by_cases hw : strEndsWith f.name ".wav" = true
    · simp only [hw, if_true]
      cases hd : f.dsp with
      | ok d =>
        show stepGenre gi rest ⟨st.features ++ [fileFeature d], st.labels ++ [gi], st.log⟩ =
          st.app (stepGenre gi rest ⟨[] ++ [fileFeature d], [] ++ [gi], []⟩)
        rw [ih, ih ⟨[] ++ [fileFeature d], [] ++ [gi], []⟩, ← ExtractState.app_assoc]
        have : (⟨st.features ++ [fileFeature d], st.labels ++ [gi], st.log⟩ : ExtractState) =
            st.app ⟨[] ++ [fileFeature d], [] ++ [gi], []⟩ := by
          cases st; simp [ExtractState.app]
        rw [this]
      | error e =>
        show stepGenre gi rest
            ⟨st.features, st.labels, st.log ++ ["Error processing " ++ f.name ++ ": " ++ e]⟩ =
          st.app (stepGenre gi rest ⟨[], [], [] ++ ["Error processing " ++ f.name ++ ": " ++ e]⟩)
        rw [ih, ih ⟨[], [], [] ++ ["Error processing " ++ f.name ++ ": " ++ e]⟩,
          ← ExtractState.app_assoc]
        have : (⟨st.features, st.labels,
            st.log ++ ["Error processing " ++ f.name ++ ": " ++ e]⟩ : ExtractState) =
            st.app ⟨[], [], [] ++ ["Error processing " ++ f.name ++ ": " ++ e]⟩ := by
          cases st; simp [ExtractState.app]
        rw [this]
    · simp only [hw, if_false, Bool.false_eq_true]
      exact ih st

/-- The genre loop over a list of directories only appends to the
incoming state. -/
theorem extractFrom_hom (dd : String → Option (List AudioFile))
    (l : List (ℕ × String)) (st : ExtractState) :
    extractFrom dd l st =
      (extractFrom dd l ⟨[], [], []⟩).map (fun r => st.app r) := by
  induction l generalizing st with
  | nil => simp [extractFrom, Except.map, ExtractState.app_nil]
  | cons p rest ih =>
    obtain ⟨gi, g⟩ := p
    simp only [extractFrom]
    cases hdg : dd g with
    | none => rfl
    | some files =>
      show extractFrom dd rest (stepGenre gi files st) =
        (extractFrom dd rest (stepGenre gi files ⟨[], [], []⟩)).map (fun r => st.app r)
      rw [ih (stepGenre gi files st), ih (stepGenre gi files ⟨[], [], []⟩)]
      cases hrest : extractFrom dd rest ⟨[], [], []⟩ with
      | error e => rfl
      | ok r =>
        simp only [Except.map, stepGenre_hom gi files st,
          ExtractState.app_assoc]

/-- Runs over directory maps that agree on the listed genres coincide. -/
theorem extractFrom_congr (dd dd' : String → Option (List AudioFile))
    (l : List (ℕ × String)) (st : ExtractState)
    (h : ∀ p ∈ l, dd' p.2 = dd p.2) :
    extractFrom dd' l st = extractFrom dd l st := by
  induction l generalizing st with
  | nil => rfl
  | cons p rest ih =>
    obtain ⟨gi, g⟩ := p
    simp only [extractFrom, h (gi, g) (List.mem_cons_self _ _)]
    cases dd g with
    | none => rfl
    | some files =>
      exact ih _ (fun q hq => h q (List.mem_cons_of_mem _ hq))

/-! Shape lemmas for the per-file pipeline. -/

theorem standardize_rect (m : Mat) (s : ℚ) (r c : ℕ) (h : Rect m r c) :
    Rect (standardize m s) r c := by
  obtain ⟨hr, hc⟩ := h
  refine ⟨by simpa [standardize], ?_⟩
  intro row hrow
  simp only [standardize, List.mem_map] at hrow
  obtain ⟨row₀, hrow₀, rfl⟩ := hrow
  simpa using hc row₀ hrow₀

theorem cols_of_rect (m : OMat) (r c : ℕ) (h : Rect m r c) (hne : m ≠ []) :
    cols m = c := by
  obtain ⟨hr, hc⟩ := h
  cases m with
  | nil => exact absurd rfl hne
  | cons row rest => simpa [cols] using hc row (by simp)

theorem fitFrames_rect (m : OMat) (r c : ℕ) (h : Rect m r c) :
    Rect (fitFrames m) r TIME_FRAMES := by
  cases hm : m with
  | nil =>
    subst hm
    obtain ⟨hr, _⟩ := h
    exact ⟨by simpa [fitFrames] using hr.symm ▸ (by simp [fitFrames, cols]), by
      intro row hrow
      simp [fitFrames, cols] at hrow⟩
  | cons row₀ rest =>
    rw [← hm]
    have hcols : cols m = c := cols_of_rect m r c h (by simp [hm])
    obtain ⟨hr, hc⟩ := h
    unfold fitFrames
    by_cases hlt : TIME_FRAMES < cols m
    · rw [if_pos hlt]
      refine ⟨by simpa, ?_⟩
      intro row hrow
      simp only [List.mem_map] at hrow
      obtain ⟨row₁, hrow₁, rfl⟩ := hrow
      have := hc row₁ hrow₁
      simp [List.length_take, this, Nat.min_eq_left (Nat.le_of_lt (hcols ▸ hlt))]
    · rw [if_neg hlt]
      refine ⟨by simpa, ?_⟩
      intro row hrow
      simp only [List.mem_map] at hrow
      obtain ⟨row₁, hrow₁, rfl⟩ := hrow
      have hlen := hc row₁ hrow₁
      have hle : cols m ≤ TIME_FRAMES := Nat.le_of_not_lt hlt
      simp [hlen, hcols]
      omega

theorem fileFeature_rect (d : DbSpec) (c : ℕ) (h : Rect d.mat N_MELS c) :
    Rect (fileFeature d) N_MELS TIME_FRAMES :=
  fitFrames_rect _ _ _ (standardize_rect _ _ _ _ h)

theorem addChannel_shape (m : OMat) (r c : ℕ) (h : Rect m r c) :
    (addChannel m).length = r ∧
      ∀ row ∈ addChannel m, row.length = c ∧ ∀ cell ∈ row, cell.length = 1 := by
  obtain ⟨hr, hc⟩ := h
  refine ⟨by simpa [addChannel], ?_⟩
  intro row hrow
  simp only [addChannel, List.mem_map] at hrow
  obtain ⟨row₀, hrow₀, rfl⟩ := hrow
  refine ⟨by simpa using hc row₀ hrow₀, ?_⟩
  intro cell hcell
  simp only [List.mem_map] at hcell
  obtain ⟨x, _, rfl⟩ := hcell
  rfl

/-- The feature matrices accumulated by the per-genre loop all have shape
N_MELS × TIME_FRAMES, provided the incoming ones do and every successful
library matrix in the file list is rectangular with N_MELS rows. -/
theorem stepGenre_shape (gi : ℕ) (fs : List AudioFile) (st : ExtractState)
    (hfs : ∀ f ∈ fs, ∀ d, f.dsp = .ok d → ∃ c, Rect d.mat N_MELS c)
    (hst : ∀ m ∈ st.features, Rect m N_MELS TIME_FRAMES) :
    ∀ m ∈ (stepGenre gi fs st).features, Rect m N_MELS TIME_FRAMES := by
  induction fs generalizing st with
  | nil => simpa [stepGenre] using hst
  | cons f rest ih =>
    simp only [stepGenre]
    by_cases hw : strEndsWith f.name ".wav" = true
    · simp only [hw, if_true]
      cases hd : f.dsp with
      | ok d =>
        refine ih _ (fun f' hf' => hfs f' (by simp [hf'])) ?_
        intro m hm
        simp only [List.mem_append, List.mem_singleton] at hm
        rcases hm with hm | rfl
        · exact hst m hm
        · obtain ⟨c, hc⟩ := hfs f (by simp) d hd
          exact fileFeature_rect d c hc
      | error e =>
        exact ih _ (fun f' hf' => hfs f' (by simp [hf'])) hst
    · simp only [hw, if_false, Bool.false_eq_true]
      exact ih _ (fun f' hf' => hfs f' (by simp [hf'])) hst

/-- Lift of the shape invariant through the genre loop. -/
theorem extractFrom_shape (dd : String → Option (List AudioFile))
    (l : List (ℕ × String)) (st st' : ExtractState)
    (hdd : ∀ p ∈ l, ∀ files, dd p.2 = some files →
      ∀ f ∈ files, ∀ d, f.dsp = .ok d → ∃ c, Rect d.mat N_MELS c)
    (hst : ∀ m ∈ st.features, Rect m N_MELS TIME_FRAMES)
    (hok : extractFrom dd l st = .ok st') :
    ∀ m ∈ st'.features, Rect m N_MELS TIME_FRAMES := by
  induction l generalizing st with
  | nil =>
    simp only [extractFrom] at hok
    cases hok
    exact hst
  | cons p rest ih =>
    obtain ⟨gi, g⟩ := p
    simp only [extractFrom] at hok
    cases hdg : dd g with
    | none => rw [hdg] at hok; cases hok
    | some files =>
      rw [hdg] at hok
      refine ih _ (fun q hq => hdd q (List.mem_cons_of_mem _ hq)) ?_ hok
      exact stepGenre_shape gi files st
        (hdd (gi, g) (by simp) files hdg) hst

/-! Counting lemmas: features and labels grow in lockstep, one per good
wav file. -/

theorem stepGenre_counts (gi : ℕ) (fs : List AudioFile) (st : ExtractState) :
    (stepGenre gi fs st).features.length =
        st.features.length + (fs.filter (fun f => isGoodWav f)).length ∧
      (stepGenre gi fs st).labels.length =
        st.labels.length + (fs.filter (fun f => isGoodWav f)).length := by
  induction fs generalizing st with
  | nil => simp [stepGenre]
  | cons f rest ih =>
    simp only [stepGenre]
    by_cases hw : strEndsWith f.name ".wav" = true
    · simp only [hw, if_true]
      cases hd : f.dsp with
      | ok d =>
        have hgood : isGoodWav f = true := by
          simp [isGoodWav, hw, hd]
        obtain ⟨h1, h2⟩ := ih ⟨st.features ++ [fileFeature d], st.labels ++ [gi], st.log⟩
        constructor
        · simp only [h1, List.filter_cons, hgood]
          simp [Nat.add_comm, Nat.add_assoc, Nat.add_left_comm]
        · simp only [h2, List.filter_cons, hgood]
          simp [Nat.add_comm, Nat.add_assoc, Nat.add_left_comm]
      | error e =>
        have hgood : isGoodWav f = false := by
          simp [isGoodWav, hw, hd]
        obtain ⟨h1, h2⟩ := ih ⟨st.features, st.labels,
          st.log ++ ["Error processing " ++ f.name ++ ": " ++ e]⟩
        constructor
        · simp only [h1, List.filter_cons, hgood]; rfl
        · simp only [h2, List.filter_cons, hgood]; rfl
    · simp only [hw, if_false, Bool.false_eq_true]
      have hgood : isGoodWav f = false := by
        simp [isGoodWav, hw]
      obtain ⟨h1, h2⟩ := ih st
      constructor
      · simp only [h1, List.filter_cons, hgood]; rfl
      · simp only [h2, List.filter_cons, hgood]; rfl

theorem extractFrom_counts (dd : String → Option (List AudioFile))
    (l : List (ℕ × String)) (st st' : ExtractState)
    (hok : extractFrom dd l st = .ok st') :
    st'.features.length = st.features.length + countFrom dd l ∧
      st'.labels.length = st.labels.length + countFrom dd l := by
  induction l generalizing st with
  | nil =>
    simp only [extractFrom] at hok
    cases hok
    simp [countFrom]
  | cons p rest ih =>
    obtain ⟨gi, g⟩ := p
    simp only [extractFrom] at hok
    cases hdg : dd g with
    | none => rw [hdg] at hok; cases hok
    | some files =>
      rw [hdg] at hok
      obtain ⟨h1, h2⟩ := ih _ hok
      obtain ⟨g1, g2⟩ := stepGenre_counts gi files st
      constructor
      · rw [h1, g1]
        simp [countFrom, hdg, Nat.add_assoc]
      · rw [h2, g2]
        simp [countFrom, hdg, Nat.add_assoc]

/-- A successful run from any starting state is the starting state
followed by the run from the empty state. -/
theorem extractFrom_ok_decomp (dd : String → Option (List AudioFile))
    (l : List (ℕ × String)) (st st' : ExtractState)
    (hok : extractFrom dd l st = .ok st') :
    ∃ r, extractFrom dd l ⟨[], [], []⟩ = .ok r ∧ st' = st.app r := by
  rw [extractFrom_hom] at hok
  cases hr : extractFrom dd l ⟨[], [], []⟩ with
  | error e => rw [hr] at hok; cases hok
  | ok r =>
    rw [hr] at hok
    simp only [Except.map] at hok
    cases hok
    exact ⟨r, rfl, rfl⟩

/-- Features already accumulated survive the per-genre loop. -/
theorem stepGenre_feature_mono (gi : ℕ) (fs : List AudioFile)
    (st : ExtractState) (x : OMat) (hx : x ∈ st.features) :
    x ∈ (stepGenre gi fs st).features := by
  rw [stepGenre_hom]
  exact List.mem_append_left _ hx

/-- Features already accumulated survive the genre loop. -/
theorem extractFrom_feature_mono (dd : String → Option (List AudioFile))
    (l : List (ℕ × String)) (st st' : ExtractState) (x : OMat)
    (hx : x ∈ st.features) (hok : extractFrom dd l st = .ok st') :
    x ∈ st'.features := by
  obtain ⟨r, _, rfl⟩ := extractFrom_ok_decomp dd l st st' hok
  exact List.mem_append_left _ hx

/-- A good wav file in the list contributes its feature to the per-genre
loop's result. -/
theorem stepGenre_mem_feature (gi : ℕ) (fs : List AudioFile)
    (st : ExtractState) (f : AudioFile) (d : DbSpec)
    (hf : f ∈ fs) (hw : strEndsWith f.name ".wav" = true)
    (hd : f.dsp = .ok d) :
    fileFeature d ∈ (stepGenre gi fs st).features := by
  induction fs generalizing st with
  | nil => cases hf
  | cons f₀ rest ih =>
    rcases List.mem_cons.mp hf with rfl | hf'
    · simp only [stepGenre, hw, if_true, hd]
      exact stepGenre_feature_mono gi rest _ _ (by simp)
    · simp only [stepGenre]
      by_cases hw₀ : strEndsWith f₀.name ".wav" = true
      · simp only [hw₀, if_true]
        cases f₀.dsp with
        | ok d₀ => exact ih _ hf'
        | error e₀ => exact ih _ hf'
      · simp only [hw₀, if_false, Bool.false_eq_true]
        exact ih _ hf'

/-- A good wav file in a listed genre directory contributes its feature to
the run's result. -/
theorem extractFrom_mem_feature (dd : String → Option (List AudioFile))
    (l : List (ℕ × String)) (st st' : ExtractState)
    (gi : ℕ) (g : String) (files : List AudioFile) (f : AudioFile) (d : DbSpec)
    (hmem : (gi, g) ∈ l) (hfiles : dd g = some files) (hf : f ∈ files)
    (hw : strEndsWith f.name ".wav" = true) (hd : f.dsp = .ok d)
    (hok : extractFrom dd l st = .ok st') :
    fileFeature d ∈ st'.features := by
  induction l generalizing st with
  | nil => cases hmem
  | cons p rest ih =>
    obtain ⟨gj, h⟩ := p
    simp only [extractFrom] at hok
    cases hdh : dd h with
    | none => rw [hdh] at hok; cases hok
    | some files' =>
      rw [hdh] at hok
      rcases List.mem_cons.mp hmem with heq | hmem'
      · cases heq
        have hff : files' = files := by
          rw [hfiles] at hdh
          injection hdh with h₂
          exact h₂.symm
        subst hff
        exact extractFrom_feature_mono dd rest _ _ _
          (stepGenre_mem_feature gi files' st f d hf hw hd) hok
      · exact ih _ hmem' hok

/-- A missing genre directory makes the whole genre loop fail. -/
theorem extractFrom_error_of_missing (dd : String → Option (List AudioFile))
    (l : List (ℕ × String)) (st : ExtractState) (gi : ℕ) (g : String)
    (hmem : (gi, g) ∈ l) (hnone : dd g = none) :
    ∃ e, extractFrom dd l st = .error e := by
  induction l generalizing st with
  | nil => cases hmem
  | cons p rest ih =>
    obtain ⟨gj, h⟩ := p
    simp only [extractFrom]
    cases hdh : dd h with
    | none => exact ⟨_, rfl⟩
    | some files =>
      rcases List.mem_cons.mp hmem with heq | hmem'
      · cases heq
        rw [hnone] at hdh
        cases hdh
      · exact ih _ hmem'

/-! Lemmas about labels and List.foldl max, feeding the one-hot width
analysis. -/

theorem stepGenre_labels_le (k gi : ℕ) (hgi : gi ≤ k) (fs : List AudioFile)
    (st : ExtractState) (hst : ∀ x ∈ st.labels, x ≤ k) :
    ∀ x ∈ (stepGenre gi fs st).labels, x ≤ k := by
  induction fs generalizing st with
  | nil => simpa [stepGenre] using hst
  | cons f rest ih =>
    simp only [stepGenre]
    by_cases hw : strEndsWith f.name ".wav" = true
    · simp only [hw, if_true]
      cases f.dsp with
      | ok d =>
        refine ih _ ?_
        intro x hx
        simp only [List.mem_append, List.mem_singleton] at hx
        rcases hx with hx | rfl
        · exact hst x hx
        · exact hgi
      | error e => exact ih _ hst
    · simp only [hw, if_false, Bool.false_eq_true]
      exact ih _ hst

theorem extractFrom_labels_le (k : ℕ) (dd : String → Option (List AudioFile))
    (l : List (ℕ × String)) (st st' : ExtractState)
    (hl : ∀ p ∈ l, p.1 ≤ k) (hst : ∀ x ∈ st.labels, x ≤ k)
    (hok : extractFrom dd l st = .ok st') :
    ∀ x ∈ st'.labels, x ≤ k := by
  induction l generalizing st with
  | nil =>
    simp only [extractFrom] at hok
    cases hok
    exact hst
  | cons p rest ih =>
    obtain ⟨gi, g⟩ := p
    simp only [extractFrom] at hok
    cases hdg : dd g with
    | none => rw [hdg] at hok; cases hok
    | some files =>
      rw [hdg] at hok
      exact ih _ (fun q hq => hl q (List.mem_cons_of_mem _ hq))
        (stepGenre_labels_le k gi (hl (gi, g) (by simp)) files st hst) hok

theorem foldl_max_init_le (l : List ℕ) (a : ℕ) : a ≤ l.foldl max a := by
  induction l generalizing a with
  | nil => simp
  | cons x rest ih => exact le_trans (le_max_left a x) (ih (max a x))

theorem le_foldl_max_of_mem (l : List ℕ) (a x : ℕ) (hx : x ∈ l) :
    x ≤ l.foldl max a := by
  induction l generalizing a with
  | nil => cases hx
  | cons y rest ih =>
    rcases List.mem_cons.mp hx with rfl | hx'
    · exact le_trans (le_max_right a x) (foldl_max_init_le rest (max a x))
    · exact ih (max a y) hx'

theorem foldl_max_le (l : List ℕ) (a k : ℕ) (ha : a ≤ k)
    (h : ∀ x ∈ l, x ≤ k) : l.foldl max a ≤ k := by
  induction l generalizing a with
  | nil => simpa
  | cons x rest ih =>
    exact ih (max a x) (max_le ha (h x (by simp)))
      (fun y hy => h y (List.mem_cons_of_mem _ hy))

theorem foldl_max_mem (l : List ℕ) (a : ℕ) :
    l.foldl max a = a ∨ l.foldl max a ∈ l := by
  induction l generalizing a with
  | nil => left; rfl
  | cons x rest ih =>
    rcases ih (max a x) with h | h
    · rcases max_choice a x with hm | hm
      · left
        rw [List.foldl_cons, hm]
        rw [hm] at h
        exact h
      · right
        rw [List.foldl_cons, h, hm]
        exact List.mem_cons_self _ _
    · right
      rw [List.foldl_cons]
      exact List.mem_cons_of_mem _ h

/-! Arithmetic lemmas about sums, means and variances. -/

theorem sum_map_div (l : List ℚ) (g : ℚ → ℚ) (s : ℚ) :
    (l.map (fun x => g x / s)).sum = (l.map g).sum / s := by
  induction l with
  | nil => simp
  | cons x rest ih => simp [ih, add_div]

theorem sum_map_sub_const (l : List ℚ) (c : ℚ) :
    (l.map (fun x => x - c)).sum = l.sum - l.length * c := by
  induction l with
  | nil => simp
  | cons x rest ih =>
    simp only [List.map_cons, List.sum_cons, ih, List.length_cons]
    push_cast
    ring

/-- The values of the standardized matrix, flattened, when the standard
deviation is nonzero: each entry shifted by the mean and divided by it. -/
theorem flatten_map_map (m : List (List α)) (g : α → β) :
    (m.map (fun row => row.map g)).flatten = m.flatten.map g :=
  (List.map_flatten _ _).symm

theorem flatVals_standardize (m : Mat) (s : ℚ) (hs : s ≠ 0) :
    flatVals (standardize m s) =
      m.flatten.map (fun x => (x - qmean m.flatten) / s) := by
  simp only [standardize, flatVals, if_neg hs]
  rw [flatten_map_map, List.filterMap_map]
  rw [← List.filterMap_eq_map (fun x => (x - qmean m.flatten) / s)]
  simp [Function.comp_def]

theorem qmean_standardize (m : Mat) (s : ℚ) (hs : s ≠ 0)
    (hne : m.flatten ≠ []) :
    qmean (flatVals (standardize m s)) = 0 := by
  have hN : (m.flatten.length : ℚ) ≠ 0 :=
    Nat.cast_ne_zero.mpr (List.length_pos.mpr hne).ne'
  have hmu : (m.flatten.length : ℚ) *
      (m.flatten.sum / (m.flatten.length : ℚ)) = m.flatten.sum := by
    rw [mul_comm, div_mul_cancel₀ _ hN]
  rw [flatVals_standardize m s hs]
  unfold qmean
  rw [sum_map_div, sum_map_sub_const, hmu]
  simp

theorem qvariance_standardize (m : Mat) (s : ℚ) (hs : s ≠ 0)
    (hv : s ^ 2 = qvariance m.flatten) (hne : m.flatten ≠ []) :
    qvariance (flatVals (standardize m s)) = 1 := by
  have hN : (m.flatten.length : ℚ) ≠ 0 :=
    Nat.cast_ne_zero.mpr (List.length_pos.mpr hne).ne'
  have hs2 : s ^ 2 ≠ 0 := pow_ne_zero _ hs
  have hvar : qvariance m.flatten =
      (m.flatten.map (fun x => (x - qmean m.flatten) ^ 2)).sum /
        m.flatten.length := rfl
  have hS : (m.flatten.map (fun x => (x - qmean m.flatten) ^ 2)).sum ≠ 0 := by
    intro h0
    apply hs2
    rw [hv, hvar, h0, zero_div]
  have hmean := qmean_standardize m s hs hne
  unfold qvariance
  rw [hmean]
  simp only [sub_zero]
  rw [flatVals_standardize m s hs, List.map_map]
  simp only [Function.comp_def, div_pow]
  rw [sum_map_div, List.length_map]
  rw [hv, hvar]
  rw [div_div_eq_mul_div, mul_comm, mul_div_assoc, div_self hS, mul_one,
    div_self hN]

/-! Lemmas about flattened replicated matrices, used to evaluate the
concrete counterexample run. -/

theorem flatten_replicate_sum (n : ℕ) (l : List ℚ) :
    ((List.replicate n l).flatten).sum = n * l.sum := by
  induction n with
  | zero => simp
  | succ k ih =>
    rw [List.replicate_succ]
    simp only [List.flatten_cons, List.sum_append, ih]
    push_cast
    ring

theorem flatten_replicate_length (n : ℕ) (l : List α) :
    ((List.replicate n l).flatten).length = n * l.length := by
  induction n with
  | zero => simp
  | succ k ih =>
    rw [List.replicate_succ]
    simp only [List.flatten_cons, List.length_append, ih]
    ring

theorem flatten_replicate_map (f : ℚ → ℚ) (n : ℕ) (l : List ℚ) :
    ((List.replicate n l).flatten).map f = (List.replicate n (l.map f)).flatten := by
  induction n with
  | zero => simp
  | succ k ih =>
    rw [List.replicate_succ, List.replicate_succ]
    simp only [List.flatten_cons, List.map_append, ih]

theorem flatten_replicate_filterMap (n : ℕ) (v : List ℚ) :
    ((List.replicate n (v.map some)).flatten).filterMap id =
      (List.replicate n v).flatten := by
  induction n with
  | zero => simp
  | succ k ih =>
    rw [List.replicate_succ, List.replicate_succ]
    simp only [List.flatten_cons, List.filterMap_append, ih]
    congr 1
    simp [List.filterMap_map, Function.comp]

/-! Further structural lemmas about the per-file pipeline. -/

/-- Fitting a matrix that already has exactly TIME_FRAMES columns is the
identity, in shape and values. -/
theorem fitFrames_of_exact (m : OMat) (r : ℕ) (h : Rect m r TIME_FRAMES) :
    fitFrames m = m := by
  cases hm : m with
  | nil => simp [fitFrames, cols]
  | cons row rest =>
    rw [← hm]
    have hcols : cols m = TIME_FRAMES :=
      cols_of_rect m r TIME_FRAMES h (by simp [hm])
    unfold fitFrames
    rw [hcols, if_neg (lt_irrefl _)]
    simp

/-- Standardizing with a zero standard deviation turns every entry into
NaN: each numerator x - mean is divided by 0.0. -/
theorem standardize_zero (m : Mat) :
    standardize m 0 = m.map (fun row => row.map (fun _ => (none : Cell))) := by
  simp [standardize]

/-- An all-NaN nonempty row keeps a NaN entry through the fit step,
whether it is truncated or padded. -/
theorem none_mem_fitFrames (m : OMat) (row : List Cell)
    (hrow : row ∈ m) (hne : row ≠ []) (hall : ∀ c ∈ row, c = none) :
    ∃ r ∈ fitFrames m, (none : Cell) ∈ r := by
  cases hr : row with
  | nil => exact absurd hr hne
  | cons c tail =>
    have hc : c = none := hall c (by rw [hr]; exact List.mem_cons_self _ _)
    unfold fitFrames
    by_cases hlt : TIME_FRAMES < cols m
    · rw [if_pos hlt]
      refine ⟨row.take TIME_FRAMES, List.mem_map_of_mem _ hrow, ?_⟩
      rw [hr, hc]
      rw [show TIME_FRAMES = 249 + 1 from rfl, List.take_succ_cons]
      exact List.mem_cons_self _ _
    · rw [if_neg hlt]
      refine ⟨row ++ List.replicate (TIME_FRAMES - cols m) (some 0),
        List.mem_map_of_mem _ hrow, ?_⟩
      rw [hr, hc]
      exact List.mem_append_left _ (List.mem_cons_self _ _)

theorem to_categorical_ok (labels : List ℕ) (hne : labels ≠ []) :
    to_categorical labels = .ok (oneHotRows labels) := by
  cases labels with
  | nil => exact absurd rfl hne
  | cons a l => rfl

theorem oneHotRows_length (labels : List ℕ) :
    (oneHotRows labels).length = labels.length := by
  simp [oneHotRows]

theorem oneHotRows_row_length (labels : List ℕ) :
    ∀ row ∈ oneHotRows labels, row.length = labels.foldl max 0 + 1 := by
  intro row hrow
  simp only [oneHotRows, List.mem_map] at hrow
  obtain ⟨l, _, rfl⟩ := hrow
  simp

/-- Successful runs of load_and_preprocess_data, decomposed: the genre
loop succeeded, at least one sample was extracted (otherwise
to_categorical raises), and the output is assembled from the final
state. -/
theorem load_ok_elim (dd : String → Option (List AudioFile)) (out : Output)
    (h : load_and_preprocess_data dd = .ok out) :
    ∃ st, extractFrom dd GENRES.enum ⟨[], [], []⟩ = .ok st ∧
      st.labels ≠ [] ∧
      out = ⟨st.features.map addChannel, oneHotRows st.labels, st.log⟩ := by
  unfold load_and_preprocess_data at h
  split at h
  · cases h
  · rename_i st heq
    refine ⟨st, heq, ?_⟩
    cases hl : st.labels with
    | nil =>
      rw [hl] at h
      simp only [to_categorical, Except.map] at h
      cases h
    | cons a l =>
      rw [to_categorical_ok st.labels (by rw [hl]; simp)] at h
      simp only [Except.map] at h
      cases h
      exact ⟨by simp, by rw [hl]⟩

theorem load_ok_intro (dd : String → Option (List AudioFile))
    (st : ExtractState)
    (hex : extractFrom dd GENRES.enum ⟨[], [], []⟩ = .ok st)
    (hne : st.labels ≠ []) :
    load_and_preprocess_data dd =
      .ok ⟨st.features.map addChannel, oneHotRows st.labels, st.log⟩ := by
  unfold load_and_preprocess_data
  rw [hex]
  show (to_categorical st.labels).map
      (fun oh => Output.mk (st.features.map addChannel) oh st.log) =
    .ok (Output.mk (st.features.map addChannel) (oneHotRows st.labels) st.log)
  rw [to_categorical_ok st.labels hne]
  rfl

/-! Step equations and the file-removal lemma behind the error-handling
claims. -/

theorem extractFrom_cons_some (dd : String → Option (List AudioFile))
    (gi : ℕ) (g : String) (files : List AudioFile) (rest : List (ℕ × String))
    (st : ExtractState) (h : dd g = some files) :
    extractFrom dd ((gi, g) :: rest) st =
      extractFrom dd rest (stepGenre gi files st) := by
  simp only [extractFrom, h]

theorem extractFrom_cons_none (dd : String → Option (List AudioFile))
    (gi : ℕ) (g : String) (rest : List (ℕ × String))
    (st : ExtractState) (h : dd g = none) :
    extractFrom dd ((gi, g) :: rest) st =
      .error ("No such file or directory: " ++ g) := by
  simp only [extractFrom, h]

theorem stepGenre_cons_error (gi : ℕ) (f : AudioFile) (rest : List AudioFile)
    (st : ExtractState) (e : String)
    (hw : strEndsWith f.name ".wav" = true) (hd : f.dsp = .error e) :
    stepGenre gi (f :: rest) st =
      stepGenre gi rest
        ⟨st.features, st.labels,
         st.log ++ ["Error processing " ++ f.name ++ ": " ++ e]⟩ := by
  simp only [stepGenre, hw, if_true, hd]

/-- Removing a wav file whose decoding raises from its genre directory
changes nothing in a successful run except that the error message printed
for it disappears from the log: features and labels are unchanged. -/
theorem extractFrom_remove_error (dd : String → Option (List AudioFile))
    (g : String) (pre post : List AudioFile) (f : AudioFile) (e : String)
    (l : List (ℕ × String)) (gi : ℕ)
    (hmem : (gi, g) ∈ l)
    (hnd : (l.map Prod.snd).Nodup)
    (hfiles : dd g = some (pre ++ f :: post))
    (hwav : strEndsWith f.name ".wav" = true)
    (herr : f.dsp = .error e)
    (st st₁ : ExtractState)
    (hok : extractFrom dd l st = .ok st₁) :
    ∃ st₂,
      extractFrom (fun x => if x = g then some (pre ++ post) else dd x) l st =
          .ok st₂ ∧
        st₂.features = st₁.features ∧ st₂.labels = st₁.labels ∧
        ∃ l1 l2,
          st₁.log = l1 ++ ("Error processing " ++ f.name ++ ": " ++ e) :: l2 ∧
            st₂.log = l1 ++ l2 := by
  induction l generalizing st with
  | nil => cases hmem
  | cons p rest ih =>
    obtain ⟨gj, h⟩ := p
    by_cases hg : h = g
    · subst hg
      simp only [List.map_cons] at hnd
      have hnotin : ∀ q ∈ rest, q.2 ≠ h := by
        intro q hq hq2
        exact (List.nodup_cons.mp hnd).1 (hq2 ▸ List.mem_map_of_mem Prod.snd hq)
      have hok' : extractFrom dd rest (stepGenre gj (pre ++ f :: post) st) = .ok st₁ := by
        rw [extractFrom_cons_some dd gj h _ rest st hfiles] at hok
        exact hok
      obtain ⟨r, hr, hst₁⟩ := extractFrom_ok_decomp dd rest _ st₁ hok'
      refine ⟨(stepGenre gj (pre ++ post) st).app r, ?_, ?_, ?_, ?_⟩
      · rw [extractFrom_cons_some _ gj h (pre ++ post) rest st (by simp)]
        rw [extractFrom_congr dd (fun x => if x = h then some (pre ++ post) else dd x)
          rest _ (fun q hq => by have hq2 := hnotin q hq; simp [hq2])]
        rw [extractFrom_hom, hr]
        rfl
      · rw [hst₁]
        show (stepGenre gj (pre ++ post) st).features ++ r.features =
          (stepGenre gj (pre ++ f :: post) st).features ++ r.features
        congr 1
        rw [stepGenre_append, stepGenre_append,
          stepGenre_cons_error gj f post _ e hwav herr,
          stepGenre_hom gj post (stepGenre gj pre st),
          stepGenre_hom gj post
            ⟨(stepGenre gj pre st).features, (stepGenre gj pre st).labels,
             (stepGenre gj pre st).log ++
               ["Error processing " ++ f.name ++ ": " ++ e]⟩]
        rfl
      · rw [hst₁]
        show (stepGenre gj (pre ++ post) st).labels ++ r.labels =
          (stepGenre gj (pre ++ f :: post) st).labels ++ r.labels
        congr 1
        rw [stepGenre_append, stepGenre_append,
          stepGenre_cons_error gj f post _ e hwav herr,
          stepGenre_hom gj post (stepGenre gj pre st),
          stepGenre_hom gj post
            ⟨(stepGenre gj pre st).features, (stepGenre gj pre st).labels,
             (stepGenre gj pre st).log ++
               ["Error processing " ++ f.name ++ ": " ++ e]⟩]
        rfl
      · refine ⟨(stepGenre gj pre st).log,
          (stepGenre gj post (⟨[], [], []⟩ : ExtractState)).log ++ r.log, ?_, ?_⟩
        · rw [hst₁]
          show (stepGenre gj (pre ++ f :: post) st).log ++ r.log = _
          rw [stepGenre_append, stepGenre_cons_error gj f post _ e hwav herr,
            stepGenre_hom gj post
              ⟨(stepGenre gj pre st).features, (stepGenre gj pre st).labels,
               (stepGenre gj pre st).log ++
                 ["Error processing " ++ f.name ++ ": " ++ e]⟩]
          show (((stepGenre gj pre st).log ++
              ["Error processing " ++ f.name ++ ": " ++ e]) ++
              (stepGenre gj post (⟨[], [], []⟩ : ExtractState)).log) ++ r.log = _
          simp [List.append_assoc]
        · show (stepGenre gj (pre ++ post) st).log ++ r.log = _
          rw [stepGenre_append, stepGenre_hom gj post (stepGenre gj pre st)]
          show (((stepGenre gj pre st).log ++
              (stepGenre gj post (⟨[], [], []⟩ : ExtractState)).log)) ++ r.log = _
          simp [List.append_assoc]
    · cases hdh : dd h with
      | none =>
        rw [extractFrom_cons_none dd gj h rest st hdh] at hok
        cases hok
      | some files =>
        have hok' : extractFrom dd rest (stepGenre gj files st) = .ok st₁ := by
          rw [extractFrom_cons_some dd gj h files rest st hdh] at hok
          exact hok
        have hmem' : (gi, g) ∈ rest := by
          rcases List.mem_cons.mp hmem with heq | h' -- LABEL
          · cases heq; exact absurd rfl hg
          · exact h'
        have hnd' : (rest.map Prod.snd).Nodup := by
          simp only [List.map_cons] at hnd
          exact (List.nodup_cons.mp hnd).2
        obtain ⟨st₂, h1, h2, h3, h4⟩ := ih hmem' hnd' _ hok'
        refine ⟨st₂, ?_, h2, h3, h4⟩
        rw [extractFrom_cons_some _ gj h files rest st
          (by simp [if_neg hg, hdh])]
        exact h1

/-! Concrete runs used by witnesses and counterexamples. -/

/-- A well-formed library output: 128 mel rows, 2 time frames, entries 0
and 2 in every row; its entry mean is 1 and its variance is exactly 1, so
its standard deviation is the rational 1. -/
def specA : DbSpec := ⟨List.replicate 128 [0, 2], 1⟩

def fileA : AudioFile := ⟨"a.wav", .ok specA⟩

/-- A data directory whose blues folder holds the single file `fileA` and
whose other genre folders are empty. -/
def ddA : String → Option (List AudioFile) :=
  fun g => if g = "blues" then some [fileA] else some []

def stA : ExtractState := ⟨[fileFeature specA], [0], []⟩

def outA : Output := ⟨[addChannel (fileFeature specA)], oneHotRows [0], []⟩

theorem meanA : qmean ((List.replicate 128 ([0, 2] : List ℚ)).flatten) = 1 := by
  unfold qmean
  rw [flatten_replicate_sum, flatten_replicate_length]
  norm_num

theorem varA : qvariance ((List.replicate 128 ([0, 2] : List ℚ)).flatten) = 1 := by
  unfold qvariance
  rw [meanA, flatten_replicate_map, flatten_replicate_sum,
    flatten_replicate_length]
  norm_num

theorem specA_wf : DbSpec.WF specA := by
  constructor
  · norm_num [specA]
  · show (1 : ℚ) ^ 2 = qvariance ((List.replicate 128 ([0, 2] : List ℚ)).flatten)
    rw [varA]
    norm_num

set_option maxRecDepth 100000 in
theorem standA : standardize specA.mat specA.std =
    List.replicate 128 (([-1, 1] : List ℚ).map some) := by
  show standardize (List.replicate 128 [0, 2]) 1 = _
  simp only [standardize, List.flatten_nil, meanA]
  rw [List.map_replicate]
  norm_num

set_option maxRecDepth 100000 in
theorem featA : fileFeature specA =
    List.replicate 128
      (([-1, 1] : List ℚ).map some ++ List.replicate 248 (some 0)) := by
  show fitFrames (standardize specA.mat specA.std) = _
  rw [standA]
  unfold fitFrames
  have hcols : cols (List.replicate 128 (([-1, 1] : List ℚ).map some)) = 2 := rfl
  rw [hcols]
  rw [if_neg (by norm_num [TIME_FRAMES])]
  rw [List.map_replicate]
  norm_num [TIME_FRAMES]

set_option maxRecDepth 100000 in
theorem flatValsA : flatVals (fileFeature specA) =
    (List.replicate 128 (([-1, 1] : List ℚ) ++ List.replicate 248 0)).flatten := by
  rw [featA]
  unfold flatVals
  have hrow : (([-1, 1] : List ℚ).map some ++ List.replicate 248 (some 0)) =
      ((([-1, 1] : List ℚ) ++ List.replicate 248 0).map some) := by
    simp [List.map_append, List.map_replicate]
  rw [hrow, flatten_replicate_filterMap]

theorem varFeatA : qvariance (flatVals (fileFeature specA)) = 1 / 125 := by
  rw [flatValsA]
  have hsum :
      ((List.replicate 128 (([-1, 1] : List ℚ) ++ List.replicate 248 0)).flatten).sum = 0 := by
    rw [flatten_replicate_sum, List.sum_append, List.sum_replicate]
    norm_num
  have hmean :
      qmean ((List.replicate 128 (([-1, 1] : List ℚ) ++ List.replicate 248 0)).flatten) = 0 := by
    unfold qmean
    rw [hsum, zero_div]
  unfold qvariance
  rw [hmean]
  simp only [sub_zero]
  rw [flatten_replicate_map, List.map_append, List.map_replicate,
    flatten_replicate_sum, List.sum_append, List.sum_replicate,
    flatten_replicate_length, List.length_append, List.length_replicate]
  norm_num [smul_zero, nsmul_eq_mul]

/-- A 1 × 250 matrix (125 zeros then 125 twos per row) whose spectrogram
already has exactly TIME_FRAMES columns; its variance is exactly 1. -/
def mW : Mat := [List.replicate 125 (0 : ℚ) ++ List.replicate 125 2]

theorem mW_flatten : mW.flatten = List.replicate 125 (0 : ℚ) ++ List.replicate 125 2 := by
  unfold mW
  rw [List.flatten_cons, List.flatten_nil, List.append_nil]

theorem meanW : qmean mW.flatten = 1 := by
  unfold qmean
  rw [mW_flatten, List.sum_append, List.sum_replicate, List.sum_replicate,
    List.length_append, List.length_replicate, List.length_replicate]
  norm_num [nsmul_eq_mul]

theorem varW : qvariance mW.flatten = 1 := by
  unfold qvariance
  rw [meanW, mW_flatten, List.map_append, List.map_replicate, List.map_replicate,
    List.sum_append, List.sum_replicate, List.sum_replicate,
    List.length_append, List.length_replicate, List.length_replicate]
  norm_num [nsmul_eq_mul]

/-- A tiny library output for counting runs: a 1 × 1 zero matrix with zero
standard deviation. -/
def specB : DbSpec := ⟨[[0]], 0⟩

def fileB : AudioFile := ⟨"b.wav", .ok specB⟩

def fileErr : AudioFile := ⟨"x.wav", .error "bad"⟩

/-- Ten wav files in the blues folder, nine good and one failing. -/
def dd6 : String → Option (List AudioFile) :=
  fun g => if g = "blues" then
    some [fileB, fileB, fileB, fileB, fileB, fileB, fileB, fileB, fileB, fileErr]
  else some []

def out6 : Output :=
  ⟨List.replicate 9 (addChannel (fileFeature specB)),
   oneHotRows (List.replicate 9 0),
   ["Error processing x.wav: bad"]⟩

def fileBad : AudioFile := ⟨"b.wav", .error "decode failed"⟩

/-- A blues folder with one good file and one failing file. -/
def dd5 : String → Option (List AudioFile) :=
  fun g => if g = "blues" then some [fileA, fileBad] else some []

def out5 : Output :=
  ⟨[addChannel (fileFeature specA)], oneHotRows [0],
   ["Error processing b.wav: decode failed"]⟩

/-- A silent clip: its decibel mel-spectrogram is a constant 128 × 250
matrix, so its variance and its standard deviation are zero. -/
def specC : DbSpec := ⟨List.replicate 128 (List.replicate 250 (0 : ℚ)), 0⟩

def fileC : AudioFile := ⟨"c.wav", .ok specC⟩

def ddC : String → Option (List AudioFile) :=
  fun g => if g = "blues" then some [fileC] else some []

def outC : Output := ⟨[addChannel (fileFeature specC)], oneHotRows [0], []⟩

theorem varC : qvariance specC.mat.flatten = 0 := by
  show qvariance ((List.replicate 128 (List.replicate 250 (0 : ℚ))).flatten) = 0
  have hsum : ((List.replicate 128 (List.replicate 250 (0 : ℚ))).flatten).sum = 0 := by
    rw [flatten_replicate_sum, List.sum_replicate]
    norm_num
  have hmean : qmean ((List.replicate 128 (List.replicate 250 (0 : ℚ))).flatten) = 0 := by
    unfold qmean
    rw [hsum, zero_div]
  unfold qvariance
  rw [hmean]
  simp only [sub_zero]
  rw [flatten_replicate_map, List.map_replicate, flatten_replicate_sum,
    List.sum_replicate]
  norm_num

theorem var55 : qvariance (([[5, 5], [5, 5]] : Mat)).flatten = 0 := by
  have hf : (([[5, 5], [5, 5]] : Mat)).flatten = [5, 5, 5, 5] := rfl
  rw [hf]
  have hm : qmean ([5, 5, 5, 5] : List ℚ) = 5 := by
    unfold qmean
    norm_num
  unfold qvariance
  rw [hm]
  norm_num

theorem mem_enum_of_mem (g : String) (hg : g ∈ GENRES) :
    ∃ gi, (gi, g) ∈ GENRES.enum := by
  have h2 : g ∈ GENRES.enum.map Prod.snd := by
    rw [List.enum_map_snd]
    exact hg
  obtain ⟨⟨i, s⟩, hp, rfl⟩ := List.mem_map.mp h2
  exact ⟨i, hp⟩

set_option maxRecDepth 10000 in
theorem nodup_enum_snd : (GENRES.enum.map Prod.snd).Nodup := by
  rw [List.enum_map_snd]
  decide

/-! The claims. -/

/-- C1: for every audio file successfully processed by
load_and_preprocess_data — whatever the duration of the source clip, i.e.
whatever the number T of time frames the library returns — the feature
stored in the output has shape exactly (128, 250, 1): N_MELS rows,
TIME_FRAMES entries per row, and a single-entry channel list per cell.
The hypothesis states the library contract: melspectrogram called with
n_mels = N_MELS returns a rectangular matrix with N_MELS rows. -/
theorem c1_feature_shape (dd : String → Option (List AudioFile))
    (hwf : ∀ g files, dd g = some files → ∀ f ∈ files, ∀ d, f.dsp = .ok d →
      ∃ T, Rect d.mat N_MELS T)
    (out : Output) (hok : load_and_preprocess_data dd = .ok out) :
    ∀ feat ∈ out.features, feat.length = N_MELS ∧
      ∀ row ∈ feat, row.length = TIME_FRAMES ∧ ∀ cell ∈ row, cell.length = 1 := by
  obtain ⟨st, hex, hne, rfl⟩ := load_ok_elim dd out hok
  intro feat hfeat
  simp only [List.mem_map] at hfeat
  obtain ⟨m, hm, rfl⟩ := hfeat
  have hrect : Rect m N_MELS TIME_FRAMES :=
    extractFrom_shape dd GENRES.enum _ st
      (fun p hp files hfiles => hwf p.2 files hfiles) (by simp) hex m hm
  exact addChannel_shape m _ _ hrect

set_option maxRecDepth 100000 in
/-- Witness for C1: a directory whose blues folder holds one wav file with
a 128 × 2 library matrix; the run succeeds and every output feature has
shape (128, 250, 1). -/
theorem c1_feature_shape_witness :
    (∀ g files, ddA g = some files → ∀ f ∈ files, ∀ d, f.dsp = .ok d →
      ∃ T, Rect d.mat N_MELS T) ∧
    load_and_preprocess_data ddA = .ok outA ∧
    ∀ feat ∈ outA.features, feat.length = N_MELS ∧
      ∀ row ∈ feat, row.length = TIME_FRAMES ∧ ∀ cell ∈ row, cell.length = 1 := by
  have hwf : ∀ g files, ddA g = some files → ∀ f ∈ files, ∀ d, f.dsp = .ok d →
      ∃ T, Rect d.mat N_MELS T := by
    intro g files hg f hf d hd
    by_cases hb : g = "blues"
    · rw [hb] at hg
      simp only [ddA, if_pos rfl] at hg
      cases hg
      simp only [List.mem_singleton] at hf
      subst hf
      cases hd
      exact ⟨2, by decide⟩
    · simp only [ddA, if_neg hb] at hg
      cases hg
      cases hf
  exact ⟨hwf, rfl, c1_feature_shape ddA hwf outA rfl⟩

set_option maxRecDepth 100000 in
/-- C2 counterexample: the blues folder holds one wav file whose library
matrix is 128 × 2 with variance 1 (a wellformed, nondegenerate clip).  In
the run's output the extracted feature has variance 1/125, not 1: the
standardization happens before the zero-padding to 250 frames, and the
appended zeros shrink the variance by the factor 2/250.  Since the
standard deviation squares to the variance, a feature with variance 1/125
has standard deviation 1/sqrt 125, far from 1, refuting the claim that
every nondegenerate feature of the dataset has standard deviation
approximately 1. -/
theorem c2_counterexample :
    DbSpec.WF specA ∧
    Rect specA.mat N_MELS 2 ∧
    load_and_preprocess_data ddA = .ok outA ∧
    outA.features = [addChannel (fileFeature specA)] ∧
    qvariance (flatVals (fileFeature specA)) = 1 / 125 ∧
    (1 / 125 : ℚ) ≠ 1 :=
  ⟨specA_wf, by decide, rfl, rfl, varFeatA, by norm_num⟩

/-- C2 amended: the standardization guarantee holds for the standardized
spectrogram before the fit-to-250-frames step — there its entries have
mean exactly 0 and variance exactly 1 — and the final feature inherits it
exactly when the spectrogram already has TIME_FRAMES columns, in which
case the fit step is the identity.  (Features padded or truncated to 250
frames are not standardized in general, as the counterexample shows.) -/
theorem c2_amended_standardization (m : Mat) (s : ℚ) (r T : ℕ)
    (hrect : Rect m r T) (hne : m.flatten ≠ [])
    (hs : s ≠ 0) (hv : s ^ 2 = qvariance m.flatten) :
    qmean (flatVals (standardize m s)) = 0 ∧
      qvariance (flatVals (standardize m s)) = 1 ∧
      (T = TIME_FRAMES → fitFrames (standardize m s) = standardize m s) :=
  ⟨qmean_standardize m s hs hne, qvariance_standardize m s hs hv hne,
   fun hT => fitFrames_of_exact _ r (hT ▸ standardize_rect m s r T hrect)⟩

set_option maxRecDepth 10000 in
/-- Witness for the amended C2, on a 1 × 250 spectrogram of variance 1:
its standardization has mean 0 and variance 1 and the fit step leaves it
unchanged. -/
theorem c2_amended_witness :
    qmean (flatVals (standardize mW 1)) = 0 ∧
      qvariance (flatVals (standardize mW 1)) = 1 ∧
      fitFrames (standardize mW 1) = standardize mW 1 := by
  obtain ⟨h1, h2, h3⟩ := c2_amended_standardization mW 1 1 250 (by decide)
    (by rw [mW_flatten]; decide) (by norm_num) (by rw [varW]; norm_num)
  exact ⟨h1, h2, h3 rfl⟩

set_option maxRecDepth 100000 in
/-- C3 counterexample: in the run over `ddA` only the blues genre (index
0) contributes a sample, and the returned one-hot label array has a single
row of length 1, not 10: to_categorical is called without num_classes, so
the width is inferred as one plus the largest label present. -/
theorem c3_counterexample :
    (load_and_preprocess_data ddA).map (fun o => o.oneHot.map List.length) =
        .ok [1] ∧ (1 : ℕ) ≠ 10 :=
  ⟨rfl, by decide⟩

/-- C3 amended: in every successful run the one-hot label array's second
dimension is one plus the largest genre index among the successfully
processed samples — and it equals 10 exactly when some sample of the last
genre (rock, index 9) was extracted, not unconditionally. -/
theorem c3_amended_width (dd : String → Option (List AudioFile))
    (st : ExtractState)
    (hex : extractFrom dd GENRES.enum ⟨[], [], []⟩ = .ok st)
    (out : Output) (hok : load_and_preprocess_data dd = .ok out) :
    ∀ row ∈ out.oneHot, row.length = st.labels.foldl max 0 + 1 ∧
      (row.length = 10 ↔ 9 ∈ st.labels) := by
  obtain ⟨st', hex', hne, rfl⟩ := load_ok_elim dd out hok
  rw [hex] at hex'
  injection hex' with hst
  subst hst
  intro row hrow
  have hlen := oneHotRows_row_length st.labels row hrow
  have hle : ∀ x ∈ st.labels, x ≤ 9 :=
    extractFrom_labels_le 9 dd GENRES.enum _ st (by decide) (by simp) hex
  refine ⟨hlen, ?_, ?_⟩
  · intro h10
    have h9 : st.labels.foldl max 0 = 9 := by omega
    rcases foldl_max_mem st.labels 0 with h0 | hmem
    · omega
    · rw [h9] at hmem
      exact hmem
  · intro h9
    have hge : 9 ≤ st.labels.foldl max 0 := le_foldl_max_of_mem st.labels 0 9 h9
    have hle' : st.labels.foldl max 0 ≤ 9 :=
      foldl_max_le st.labels 0 9 (by omega) hle
    omega

set_option maxRecDepth 100000 in
/-- Witness for the amended C3: in the run over `ddA` the single one-hot
row has width 0 + 1 = 1, and it is not 10 because no rock sample exists. -/
theorem c3_amended_width_witness :
    extractFrom ddA GENRES.enum ⟨[], [], []⟩ = .ok stA ∧
    load_and_preprocess_data ddA = .ok outA ∧
    ∀ row ∈ outA.oneHot, row.length = stA.labels.foldl max 0 + 1 ∧
      (row.length = 10 ↔ 9 ∈ stA.labels) :=
  ⟨rfl, rfl, c3_amended_width ddA stA rfl outA rfl⟩

/-- C4: for a rectangular nonempty matrix with T columns, the fit step
truncates each row to its first TIME_FRAMES entries when T exceeds
TIME_FRAMES, right-pads each row with TIME_FRAMES - T zeros when T is at
most TIME_FRAMES, and is the identity (shape and values) when T equals
TIME_FRAMES. -/
theorem c4_fit_truncate_pad (m : OMat) (r T : ℕ)
    (hrect : Rect m r T) (hne : m ≠ []) :
    (TIME_FRAMES < T → fitFrames m = m.map (fun row => row.take TIME_FRAMES)) ∧
    (T ≤ TIME_FRAMES →
      fitFrames m =
        m.map (fun row => row ++ List.replicate (TIME_FRAMES - T) (some 0))) ∧
    (T = TIME_FRAMES → fitFrames m = m) := by
  have hcols := cols_of_rect m r T hrect hne
  refine ⟨?_, ?_, ?_⟩
  · intro h
    unfold fitFrames
    rw [hcols, if_pos h]
  · intro h
    unfold fitFrames
    rw [hcols, if_neg (Nat.not_lt.mpr h)]
  · intro h
    exact fitFrames_of_exact m r (h ▸ hrect)

set_option maxRecDepth 10000 in
/-- Witness for C4: a 1 × 250 matrix is returned unchanged by the fit
step. -/
theorem c4_fit_truncate_pad_witness :
    Rect [List.replicate 250 (some 0 : Cell)] 1 250 ∧
    fitFrames [List.replicate 250 (some 0 : Cell)] =
      [List.replicate 250 (some 0 : Cell)] :=
  ⟨by decide,
   (c4_fit_truncate_pad [List.replicate 250 (some 0 : Cell)] 1 250
     (by decide) (by decide)).2.2 rfl⟩

/-- C5: a wav file whose decode/DSP raises is caught by the per-file
handler: the run still succeeds, the log contains the printed message
"Error processing <name>: <error>" at the position where the file was
visited, and removing the file from its directory yields exactly the same
features and one-hot labels with only that log entry gone — the failure
never aborts the extraction of the remaining files. -/
theorem c5_error_logged_skipped (dd : String → Option (List AudioFile))
    (g : String) (pre post : List AudioFile) (f : AudioFile) (e : String)
    (out : Output)
    (hg : g ∈ GENRES)
    (hfiles : dd g = some (pre ++ f :: post))
    (hwav : strEndsWith f.name ".wav" = true)
    (herr : f.dsp = .error e)
    (hok : load_and_preprocess_data dd = .ok out) :
    ∃ out',
      load_and_preprocess_data
          (fun x => if x = g then some (pre ++ post) else dd x) = .ok out' ∧
        out'.features = out.features ∧ out'.oneHot = out.oneHot ∧
        ∃ l1 l2,
          out.log = l1 ++ ("Error processing " ++ f.name ++ ": " ++ e) :: l2 ∧
            out'.log = l1 ++ l2 := by
  obtain ⟨st, hex, hne, rfl⟩ := load_ok_elim dd out hok
  obtain ⟨gi, hgi⟩ := mem_enum_of_mem g hg
  obtain ⟨st₂, h1, h2, h3, l1, l2, h4, h5⟩ :=
    extractFrom_remove_error dd g pre post f e GENRES.enum gi hgi
      nodup_enum_snd hfiles hwav herr _ st hex
  refine ⟨⟨st₂.features.map addChannel, oneHotRows st₂.labels, st₂.log⟩,
    load_ok_intro _ st₂ h1 (by rw [h3]; exact hne), ?_, ?_, l1, l2, h4, h5⟩
  · show st₂.features.map addChannel = st.features.map addChannel
    rw [h2]
  · show oneHotRows st₂.labels = oneHotRows st.labels
    rw [h3]

set_option maxRecDepth 100000 in
/-- Witness for C5: blues holds a good file and a failing file; the run
returns one sample and logs the failing file's message, and the run
without the failing file returns the same sample with an empty log. -/
theorem c5_error_logged_skipped_witness :
    "blues" ∈ GENRES ∧
    dd5 "blues" = some ([fileA] ++ fileBad :: []) ∧
    strEndsWith fileBad.name ".wav" = true ∧
    fileBad.dsp = .error "decode failed" ∧
    load_and_preprocess_data dd5 = .ok out5 ∧
    ∃ out',
      load_and_preprocess_data
          (fun x => if x = "blues" then some ([fileA] ++ []) else dd5 x) =
          .ok out' ∧
        out'.features = out5.features ∧ out'.oneHot = out5.oneHot ∧
        ∃ l1 l2,
          out5.log =
            l1 ++ ("Error processing " ++ fileBad.name ++ ": " ++ "decode failed") :: l2 ∧
            out'.log = l1 ++ l2 :=
  ⟨by decide, rfl, by decide, rfl, rfl,
   c5_error_logged_skipped dd5 "blues" [fileA] [] fileBad "decode failed"
     out5 (by decide) rfl (by decide) rfl rfl⟩

/-- C6: in every successful run the one-hot label array has exactly one
row per returned feature, and the number of features equals the number of
good wav files (name ends in ".wav" and decoding succeeded) across the
listed genre directories — failed files contribute nothing, with no
placeholder of any kind. -/
theorem c6_label_integrity (dd : String → Option (List AudioFile))
    (out : Output) (hok : load_and_preprocess_data dd = .ok out) :
    out.oneHot.length = out.features.length ∧
      out.features.length = countFrom dd GENRES.enum := by
  obtain ⟨st, hex, hne, rfl⟩ := load_ok_elim dd out hok
  obtain ⟨h1, h2⟩ := extractFrom_counts dd GENRES.enum _ st hex
  constructor
  · show (oneHotRows st.labels).length = (st.features.map addChannel).length
    rw [oneHotRows_length, List.length_map, h1, h2]
    rfl
  · show (st.features.map addChannel).length = countFrom dd GENRES.enum
    rw [List.length_map, h1]
    simp

set_option maxRecDepth 100000 in
/-- Witness for C6: ten wav files in the blues folder, nine good and one
failing: the output holds exactly nine (feature, one-hot row) pairs. -/
theorem c6_label_integrity_witness :
    load_and_preprocess_data dd6 = .ok out6 ∧
    (out6.oneHot.length = out6.features.length ∧
      out6.features.length = countFrom dd6 GENRES.enum) ∧
    countFrom dd6 GENRES.enum = 9 ∧ out6.oneHot.length = 9 :=
  ⟨rfl, c6_label_integrity dd6 out6 rfl, rfl, rfl⟩

/-- C7: when the decibel mel-spectrogram has zero variance (hence zero
standard deviation — by wellformedness the carried std squares to the
variance), the standardization step divides each zero numerator by the
zero standard deviation with no guard, and every entry of the result is
NaN; no error is raised and no check of the standard deviation happens
before the division. -/
theorem c7_zero_variance_nan (m : Mat) (s : ℚ)
    (hs0 : 0 ≤ s) (hv : s ^ 2 = qvariance m.flatten)
    (hz : qvariance m.flatten = 0) :
    standardize m s = m.map (fun row => row.map (fun _ => (none : Cell))) := by
  have hs : s = 0 := by
    have h2 : s ^ 2 = 0 := by rw [hv, hz]
    exact pow_eq_zero_iff (n := 2) (by norm_num) |>.mp h2
  rw [hs]
  exact standardize_zero m

/-- Witness for C7: the constant 2 × 2 matrix of fives has variance 0 and
standardizing it with its standard deviation 0 yields the all-NaN
matrix. -/
theorem c7_zero_variance_nan_witness :
    (0 : ℚ) ≤ 0 ∧
    (0 : ℚ) ^ 2 = qvariance (([[5, 5], [5, 5]] : Mat)).flatten ∧
    qvariance (([[5, 5], [5, 5]] : Mat)).flatten = 0 ∧
    standardize [[5, 5], [5, 5]] 0 = [[none, none], [none, none]] :=
  ⟨le_refl 0, by rw [var55]; norm_num, var55,
   c7_zero_variance_nan [[5, 5], [5, 5]] 0 (le_refl 0)
     (by rw [var55]; norm_num) var55⟩

/-- C8: if any genre of the fixed list has no directory under the data
directory, os.listdir raises outside the per-file try block and the whole
run fails with an uncaught error: load_and_preprocess_data returns no
output at all. -/
theorem c8_missing_genre_dir (dd : String → Option (List AudioFile))
    (g : String) (hg : g ∈ GENRES) (hnone : dd g = none) :
    ∃ e, load_and_preprocess_data dd = .error e := by
  obtain ⟨gi, hgi⟩ := mem_enum_of_mem g hg
  obtain ⟨e, he⟩ :=
    extractFrom_error_of_missing dd GENRES.enum ⟨[], [], []⟩ gi g hgi hnone
  refine ⟨e, ?_⟩
  unfold load_and_preprocess_data
  rw [he]

/-- Witness for C8: a data directory with no genre folders at all makes
the run fail. -/
theorem c8_missing_genre_dir_witness :
    "blues" ∈ GENRES ∧
    (fun _ : String => (none : Option (List AudioFile))) "blues" = none ∧
    ∃ e, load_and_preprocess_data (fun _ => none) = .error e :=
  ⟨by decide, rfl, c8_missing_genre_dir (fun _ => none) "blues" (by decide) rfl⟩

/-- C9: the validation_data argument given to model.fit is exactly the
pair (X_test, y_test) produced by the train/test split, the same pair is
given to model.evaluate, and model.predict runs on the same X_test: the
final evaluation set coincides with the set that drove the training-time
callbacks.  (What the callbacks do with it is framework-internal.) -/
theorem c9_validation_is_test (mask : List Bool) (X : List α) (y : List β) :
    fit_validation_data mask X y = evaluate_args mask X y ∧
      (fit_validation_data mask X y).1 = predict_arg mask X y :=
  ⟨rfl, rfl⟩

/-- C10: a zero-variance clip raises nothing: the per-file handler does
not fire, the all-NaN standardized matrix is fitted to 250 frames and
appended together with its genre label, so the returned dataset contains a
feature with NaN entries and still has one one-hot row per feature. -/
theorem c10_nan_feature_kept (dd : String → Option (List AudioFile))
    (g : String) (files : List AudioFile) (f : AudioFile) (d : DbSpec)
    (out : Output)
    (hg : g ∈ GENRES) (hfiles : dd g = some files) (hf : f ∈ files)
    (hwav : strEndsWith f.name ".wav" = true) (hdok : f.dsp = .ok d)
    (hs0 : 0 ≤ d.std) (hv : d.std ^ 2 = qvariance d.mat.flatten)
    (hz : qvariance d.mat.flatten = 0)
    (row₀ : List ℚ) (hrow₀ : row₀ ∈ d.mat) (hrne : row₀ ≠ [])
    (hok : load_and_preprocess_data dd = .ok out) :
    (∃ feat ∈ out.features, ∃ r ∈ feat, ([none] : List Cell) ∈ r) ∧
      out.oneHot.length = out.features.length := by
  have hs : d.std = 0 := by
    have h2 : d.std ^ 2 = 0 := by rw [hv, hz]
    exact pow_eq_zero_iff (n := 2) (by norm_num) |>.mp h2
  obtain ⟨st, hex, hne, rfl⟩ := load_ok_elim dd out hok
  obtain ⟨gi, hgi⟩ := mem_enum_of_mem g hg
  have hmemf : fileFeature d ∈ st.features :=
    extractFrom_mem_feature dd GENRES.enum _ st gi g files f d hgi hfiles hf
      hwav hdok hex
  constructor
  · refine ⟨addChannel (fileFeature d), List.mem_map_of_mem _ hmemf, ?_⟩
    have hnan : ∃ r ∈ fitFrames (standardize d.mat d.std), (none : Cell) ∈ r := by
      rw [hs, standardize_zero]
      exact none_mem_fitFrames _ (row₀.map (fun _ => (none : Cell)))
        (List.mem_map_of_mem _ hrow₀)
        (by simpa using hrne)
        (fun c hc => by
          obtain ⟨x, _, rfl⟩ := List.mem_map.mp hc
          rfl)
    obtain ⟨r, hr, hnoner⟩ := hnan
    exact ⟨r.map (fun x => [x]), List.mem_map_of_mem _ hr,
      List.mem_map_of_mem _ hnoner⟩
  · obtain ⟨h1, h2⟩ := extractFrom_counts dd GENRES.enum _ st hex
    show (oneHotRows st.labels).length = (st.features.map addChannel).length
    rw [oneHotRows_length, List.length_map, h1, h2]
    rfl

set_option maxRecDepth 100000 in
/-- Witness for C10: a silent clip whose 128 × 250 spectrogram is constant
has zero variance; the run keeps its all-NaN feature and its label. -/
theorem c10_nan_feature_kept_witness :
    "blues" ∈ GENRES ∧
    ddC "blues" = some [fileC] ∧
    fileC ∈ [fileC] ∧
    strEndsWith fileC.name ".wav" = true ∧
    fileC.dsp = .ok specC ∧
    qvariance specC.mat.flatten = 0 ∧
    load_and_preprocess_data ddC = .ok outC ∧
    ((∃ feat ∈ outC.features, ∃ r ∈ feat, ([none] : List Cell) ∈ r) ∧
      outC.oneHot.length = outC.features.length) :=
  ⟨by decide, rfl, List.mem_singleton.mpr rfl, by decide, rfl, varC, rfl,
   c10_nan_feature_kept ddC "blues" [fileC] fileC specC outC (by decide) rfl
     (List.mem_singleton.mpr rfl) (by decide) rfl (le_refl 0)
     (by rw [varC]; show (0 : ℚ) ^ 2 = 0; norm_num) varC (List.replicate 250 0)
     (by simp [specC])
     (by simp)
     rfl⟩

end MusicPy
